import Mathlib

/-
Verification of the teeny JVM interpreter (jvm.c).

The interpreter is shallowly embedded: `stepWith` is the body of the C
dispatch `switch` in `execute`, `loop` is the `while (pc < code_length)`
loop (with a fuel parameter to make the recursion well-founded), and
`execute` is the C function of the same name.  Machine integers (`int32_t`)
are modelled as `Int` with explicit reduction modulo 2^32 (`wrap32`)
wherever the C arithmetic wraps; `size_t` program counters wrap modulo
2^64 (`pcAdd`).  Out-of-bounds memory accesses, failed `assert`s and other
C undefined behaviour are modelled by the error outcome `Out.err`.
-/

namespace TeenyJVM

/-- Reduce an integer to the value of the `int32_t` holding it
(two's complement wrap-around). -/
def wrap32 (x : Int) : Int := (x + 2 ^ 31).emod (2 ^ 32) - 2 ^ 31

/-- The values representable by an `int32_t`. -/
def isInt32 (x : Int) : Prop := -(2 ^ 31) ≤ x ∧ x < 2 ^ 31

instance (x : Int) : Decidable (isInt32 x) := by
  unfold isInt32
  infer_instance

/-- The C cast `(int8_t) b` of an unsigned byte, as in `bipush` and `iinc`. -/
def sext8 (b : Nat) : Int :=
  if b % 256 < 128 then (b % 256 : Int) else (b % 256 : Int) - 256

/-- The C cast `(int16_t) x` of an unsigned value, as in `sipush`, the
conditional branches, `goto` and `invokestatic`. -/
def toInt16 (x : Nat) : Int :=
  if x % 65536 < 32768 then (x % 65536 : Int) else (x % 65536 : Int) - 65536

/-- `pc += d` where `pc` is a C `size_t` and `d` an `int16_t`
(conversion to `size_t` wraps modulo 2^64). -/
def pcAdd (pc : Nat) (d : Int) : Nat := (((pc : Int) + d).emod (2 ^ 64)).toNat

/-- A parsed method: `code.max_stack`, `code.max_locals`, the parameter
count that `get_number_of_parameters` reads off the descriptor, and the
bytecode (`code.code` with `code_length = code.length`). -/
structure Method where
  maxStack : Nat
  maxLocals : Nat
  nparams : Nat
  code : List Nat
  deriving DecidableEq

/-- A constant-pool entry as consumed by the interpreter:
a `CONSTANT_Integer_info` payload or a method reference. -/
inductive CPEntry where
  | intConst (v : Int)
  | methodRef (m : Method)
  deriving DecidableEq

/-- The class file: the interpreter only reads its constant pool
(1-based; entry `k` is `pool[k-1]`). -/
structure ClassFile where
  pool : List CPEntry
  deriving DecidableEq

/-- The heap: an index-based vector of integer arrays.  Slot 0 of each
array stores the element count. -/
abbrev Heap := List (List Int)

/-- Modelled from the spec: `heap_add` (heap.h is not part of the
interpreter source).  Registers a newly allocated array; the returned
reference is non-negative and monotonically assigned (the index of the
array in the registry). -/
def heap_add (h : Heap) (arr : List Int) : Heap × Int := (h ++ [arr], (h.length : Int))

/-- Modelled from the spec: `heap_get` (heap.h is not part of the
interpreter source).  Returns the array stored for a reference; a
reference never produced by `heap_add` has no defined result. -/
def heap_get (h : Heap) (ref : Int) : Option (List Int) :=
  if ref < 0 then none else h[ref.toNat]?

/-- An in-place write through the pointer returned by `heap_get`,
expressed functionally: the registry with array `ref` replaced. -/
def heap_set (h : Heap) (ref : Int) (arr : List Int) : Heap := h.set ref.toNat arr

/-- Modelled from the spec: `find_method_from_index` (read_class.c is not
part of the interpreter source).  Resolves a method-reference
constant-pool entry (1-based index) to a method of the same class. -/
def find_method_from_index (index : Int) (cls : ClassFile) : Option Method :=
  if index ≤ 0 then none
  else
    match cls.pool[(index - 1).toNat]? with
    | some (CPEntry.methodRef mm) => some mm
    | _ => none

/-- The signed constant-pool index `invokestatic` computes from its two
operand bytes: `(int16_t)((b1 << 8) | b2)` (jvm.c line 377). -/
def invokestaticIndex (b1 b2 : Nat) : Int := toInt16 (b1 * 256 + b2)

/-- The callee locals built by the `invokestatic` pop loop
(jvm.c lines 380-384): a zeroed array of `maxLocals` words whose first
`n` entries receive the popped arguments, the first pop (top of stack)
landing at index `n-1` and the last pop at index 0. -/
def marshal (n maxLocals : Nat) (stack : List Int) : List Int :=
  (stack.take n).reverse ++ List.replicate (maxLocals - n) 0

/-- One interpreter activation frame: program counter, operand stack
(head = top of stack, so `sp = stack.length`), local-variable array and
the (threaded) heap. -/
structure Frame where
  pc : Nat
  stack : List Int
  locals : List Int
  heap : Heap
  deriving DecidableEq

/-- Outcome of dispatching one instruction: fall through to the next
instruction with an updated frame, return from the activation, or hit
undefined behaviour / a failed assert. -/
inductive Out where
  | next (fr : Frame)
  | ret (v : Option Int) (heap : Heap)
  | err
  deriving DecidableEq

/-- Opcode numbering from read_class.h (the canonical class-file
numbering; the `iconst` handler's `code[pc] - 3` and the `iload_k`
handlers' `code[pc] - i_iload_0` depend on it). -/
@[simp] def i_nop : Nat := 0
@[simp] def i_iconst_m1 : Nat := 2
@[simp] def i_iconst_5 : Nat := 8
@[simp] def i_bipush : Nat := 16
@[simp] def i_sipush : Nat := 17
@[simp] def i_ldc : Nat := 18
@[simp] def i_iload : Nat := 21
@[simp] def i_aload : Nat := 25
@[simp] def i_iload_0 : Nat := 26
@[simp] def i_iload_3 : Nat := 29
@[simp] def i_aload_0 : Nat := 42
@[simp] def i_aload_3 : Nat := 45
@[simp] def i_iaload : Nat := 46
@[simp] def i_istore : Nat := 54
@[simp] def i_astore : Nat := 58
@[simp] def i_istore_0 : Nat := 59
@[simp] def i_istore_3 : Nat := 62
@[simp] def i_astore_0 : Nat := 75
@[simp] def i_astore_3 : Nat := 78
@[simp] def i_iastore : Nat := 79
@[simp] def i_dup : Nat := 89
@[simp] def i_iadd : Nat := 96
@[simp] def i_isub : Nat := 100
@[simp] def i_imul : Nat := 104
@[simp] def i_idiv : Nat := 108
@[simp] def i_irem : Nat := 112
@[simp] def i_ineg : Nat := 116
@[simp] def i_ishl : Nat := 120
@[simp] def i_ishr : Nat := 122
@[simp] def i_iushr : Nat := 124
@[simp] def i_iand : Nat := 126
@[simp] def i_ior : Nat := 128
@[simp] def i_ixor : Nat := 130
@[simp] def i_iinc : Nat := 132
@[simp] def i_ifeq : Nat := 153
@[simp] def i_ifne : Nat := 154
@[simp] def i_iflt : Nat := 155
@[simp] def i_ifge : Nat := 156
@[simp] def i_ifgt : Nat := 157
@[simp] def i_ifle : Nat := 158
@[simp] def i_if_icmpeq : Nat := 159
@[simp] def i_if_icmpne : Nat := 160
@[simp] def i_if_icmplt : Nat := 161
@[simp] def i_if_icmpge : Nat := 162
@[simp] def i_if_icmpgt : Nat := 163
@[simp] def i_if_icmple : Nat := 164
@[simp] def i_goto : Nat := 167
@[simp] def i_ireturn : Nat := 172
@[simp] def i_areturn : Nat := 176
@[simp] def i_return : Nat := 177
@[simp] def i_getstatic : Nat := 178
@[simp] def i_invokevirtual : Nat := 182
@[simp] def i_invokestatic : Nat := 184
@[simp] def i_newarray : Nat := 188
@[simp] def i_arraylength : Nat := 190

/-- The recursive call `execute(meth, locals_queue, class, heap)` made by
the `invokestatic` handler, abstracted so the dispatch body is a
non-recursive definition. -/
abbrev Exec := ClassFile → Method → List Int → Heap → Option (Option Int × Heap)

/-- The `iload`/`aload` handlers with an 8-bit immediate index
(jvm.c lines 187-192 and 442-447; the two C bodies are identical). -/
def loadImm (m : Method) (fr : Frame) : Out :=
  match m.code[fr.pc + 1]? with
  | some idx =>
    match fr.locals[idx]? with
    | some v =>
      if fr.stack.length < m.maxStack then
        Out.next ⟨fr.pc + 2, v :: fr.stack, fr.locals, fr.heap⟩
      else Out.err
    | none => Out.err
  | none => Out.err

/-- The `iload_k`/`aload_k` handlers (jvm.c lines 193-201 and 448-456;
the two C bodies are identical up to the opcode base subtracted). -/
def loadK (m : Method) (fr : Frame) (k : Nat) : Out :=
  match fr.locals[k]? with
  | some v =>
    if fr.stack.length < m.maxStack then
      Out.next ⟨fr.pc + 1, v :: fr.stack, fr.locals, fr.heap⟩
    else Out.err
  | none => Out.err

/-- The `istore`/`astore` handlers with an 8-bit immediate index
(jvm.c lines 202-207 and 467-472; identical C bodies). -/
def storeImm (m : Method) (fr : Frame) : Out :=
  match m.code[fr.pc + 1]? with
  | some idx =>
    match fr.stack with
    | v :: s =>
      if idx < fr.locals.length then
        Out.next ⟨fr.pc + 2, s, fr.locals.set idx v, fr.heap⟩
      else Out.err
    | [] => Out.err
  | none => Out.err

/-- The `istore_k`/`astore_k` handlers (jvm.c lines 208-216 and 473-481;
identical C bodies up to the opcode base). -/
def storeK (m : Method) (fr : Frame) (k : Nat) : Out :=
  match fr.stack with
  | v :: s =>
    if k < fr.locals.length then
      Out.next ⟨fr.pc + 1, s, fr.locals.set k v, fr.heap⟩
    else Out.err
  | [] => Out.err

/-- The instructions of the dispatch `switch`, one per `case` label group
of jvm.c lines 53-482 (a group of consecutive `case` labels sharing one
body, such as `iconst_m1..iconst_5`, is one instruction here, the body
reading the opcode byte itself); `unknown` is an opcode byte matching no
`case` label. -/
inductive Instr where
  | bipush | iadd | vreturn | getstatic | invokevirtual | iconst | sipush | isub | imul
  | idiv | irem | ineg | ishl | ishr | iushr | iand | ior | ixor
  | iload | iloadK | istore | istoreK | iinc | ldc
  | ifeq | ifne | iflt | ifge | ifgt | ifle
  | icmpeq | icmpne | icmplt | icmpge | icmpgt | icmple
  | goto | ireturn | invokestatic | nop | dup | newarray | arraylength | areturn
  | iaload | aload | aloadK | iastore | astore | astoreK | unknown
  deriving DecidableEq

/-- Which `case` label of the dispatch `switch` an opcode byte selects
(jvm.c lines 53-482), in source order; a byte matching no label selects
`unknown`. -/
def decode (op : Nat) : Instr :=
  if op = i_bipush then .bipush
  else if op = i_iadd then .iadd
  else if op = i_return then .vreturn
  else if op = i_getstatic then .getstatic
  else if op = i_invokevirtual then .invokevirtual
  else if i_iconst_m1 ≤ op ∧ op ≤ i_iconst_5 then .iconst
  else if op = i_sipush then .sipush
  else if op = i_isub then .isub
  else if op = i_imul then .imul
  else if op = i_idiv then .idiv
  else if op = i_irem then .irem
  else if op = i_ineg then .ineg
  else if op = i_ishl then .ishl
  else if op = i_ishr then .ishr
  else if op = i_iushr then .iushr
  else if op = i_iand then .iand
  else if op = i_ior then .ior
  else if op = i_ixor then .ixor
  else if op = i_iload then .iload
  else if i_iload_0 ≤ op ∧ op ≤ i_iload_3 then .iloadK
  else if op = i_istore then .istore
  else if i_istore_0 ≤ op ∧ op ≤ i_istore_3 then .istoreK
  else if op = i_iinc then .iinc
  else if op = i_ldc then .ldc
  else if op = i_ifeq then .ifeq
  else if op = i_ifne then .ifne
  else if op = i_iflt then .iflt
  else if op = i_ifge then .ifge
  else if op = i_ifgt then .ifgt
  else if op = i_ifle then .ifle
  else if op = i_if_icmpeq then .icmpeq
  else if op = i_if_icmpne then .icmpne
  else if op = i_if_icmplt then .icmplt
  else if op = i_if_icmpge then .icmpge
  else if op = i_if_icmpgt then .icmpgt
  else if op = i_if_icmple then .icmple
  else if op = i_goto then .goto
  else if op = i_ireturn then .ireturn
  else if op = i_invokestatic then .invokestatic
  else if op = i_nop then .nop
  else if op = i_dup then .dup
  else if op = i_newarray then .newarray
  else if op = i_arraylength then .arraylength
  else if op = i_areturn then .areturn
  else if op = i_iaload then .iaload
  else if op = i_aload then .aload
  else if i_aload_0 ≤ op ∧ op ≤ i_aload_3 then .aloadK
  else if op = i_iastore then .iastore
  else if op = i_astore then .astore
  else if i_astore_0 ≤ op ∧ op ≤ i_astore_3 then .astoreK
  else .unknown

/-- The body of the selected `case` of the dispatch `switch` in `execute`
(jvm.c lines 53-482), parameterised by the recursive executor used by
`invokestatic`; `op` is the opcode byte `code[pc]` (the grouped handlers
`iconst`, `iload_k`, `aload_k`, `istore_k`, `astore_k` read it back).
A push checks `stack.length < maxStack` because the C writes
`operand_stack[stack_count]` into a buffer of exactly `max_stack` words;
reads of a too-short stack, out-of-range locals indices, failed asserts,
reads past `code_length`, shift counts of 32 or more (C11 6.5.7p3) and
invalid heap references are all undefined behaviour in the C and yield
`Out.err`.  An opcode matching no `case` label leaves the frame (in
particular `pc`) unchanged, exactly as the C `switch` without a `default`
label does. -/
def stepInstr (exec : Exec) (cls : ClassFile) (m : Method) (fr : Frame) (op : Nat) :
    Instr → Out
  | .bipush =>
    match m.code[fr.pc + 1]? with
    | some b =>
      if fr.stack.length < m.maxStack then
        Out.next ⟨fr.pc + 2, sext8 b :: fr.stack, fr.locals, fr.heap⟩
      else Out.err
    | none => Out.err
  | .iadd =>
    match fr.stack with
    | b :: a :: s => Out.next ⟨fr.pc + 1, wrap32 (b + a) :: s, fr.locals, fr.heap⟩
    | _ => Out.err
  | .vreturn => Out.ret none fr.heap
  | .getstatic => Out.next ⟨fr.pc + 3, fr.stack, fr.locals, fr.heap⟩
  | .invokevirtual =>
    match fr.stack with
    | _ :: s => Out.next ⟨fr.pc + 3, s, fr.locals, fr.heap⟩
    | [] => Out.err
  | .iconst =>
    if fr.stack.length < m.maxStack then
      Out.next ⟨fr.pc + 1, ((op : Int) - 3) :: fr.stack, fr.locals, fr.heap⟩
    else Out.err
  | .sipush =>
    match m.code[fr.pc + 1]?, m.code[fr.pc + 2]? with
    | some b1, some b2 =>
      if fr.stack.length < m.maxStack then
        Out.next ⟨fr.pc + 3, toInt16 (b1 * 256 + b2) :: fr.stack, fr.locals, fr.heap⟩
      else Out.err
    | _, _ => Out.err
  | .isub =>
    match fr.stack with
    | b :: a :: s => Out.next ⟨fr.pc + 1, wrap32 (a - b) :: s, fr.locals, fr.heap⟩
    | _ => Out.err
  | .imul =>
    match fr.stack with
    | b :: a :: s => Out.next ⟨fr.pc + 1, wrap32 (a * b) :: s, fr.locals, fr.heap⟩
    | _ => Out.err
  | .idiv =>
    match fr.stack with
    | b :: a :: s =>
      if b = 0 then Out.err
      else Out.next ⟨fr.pc + 1, wrap32 (a.tdiv b) :: s, fr.locals, fr.heap⟩
    | _ => Out.err
  | .irem =>
    match fr.stack with
    | b :: a :: s =>
      if b = 0 then Out.err
      else Out.next ⟨fr.pc + 1, wrap32 (a.tmod b) :: s, fr.locals, fr.heap⟩
    | _ => Out.err
  | .ineg =>
    match fr.stack with
    | a :: s => Out.next ⟨fr.pc + 1, wrap32 (-a) :: s, fr.locals, fr.heap⟩
    | [] => Out.err
  | .ishl =>
    match fr.stack with
    | b :: a :: s =>
      if b < 0 then Out.err
      else if b < 32 then
        Out.next ⟨fr.pc + 1, wrap32 (a * 2 ^ b.toNat) :: s, fr.locals, fr.heap⟩
      else Out.err
    | _ => Out.err
  | .ishr =>
    match fr.stack with
    | b :: a :: s =>
      if b < 0 then Out.err
      else if b < 32 then
        Out.next ⟨fr.pc + 1, a.fdiv (2 ^ b.toNat) :: s, fr.locals, fr.heap⟩
      else Out.err
    | _ => Out.err
  | .iushr =>
    match fr.stack with
    | b :: a :: s =>
      if b < 0 then Out.err
      else if b < 32 then
        Out.next ⟨fr.pc + 1,
          wrap32 ((((a.emod (2 ^ 32)).toNat / 2 ^ b.toNat : Nat) : Int)) :: s,
          fr.locals, fr.heap⟩
      else Out.err
    | _ => Out.err
  | .iand =>
    match fr.stack with
    | b :: a :: s => Out.next ⟨fr.pc + 1, Int.land a b :: s, fr.locals, fr.heap⟩
    | _ => Out.err
  | .ior =>
    match fr.stack with
    | b :: a :: s => Out.next ⟨fr.pc + 1, Int.lor a b :: s, fr.locals, fr.heap⟩
    | _ => Out.err
  | .ixor =>
    match fr.stack with
    | b :: a :: s => Out.next ⟨fr.pc + 1, Int.xor a b :: s, fr.locals, fr.heap⟩
    | _ => Out.err
  | .iload => loadImm m fr
  | .iloadK => loadK m fr (op - i_iload_0)
  | .istore => storeImm m fr
  | .istoreK => storeK m fr (op - i_istore_0)
  | .iinc =>
    match m.code[fr.pc + 1]?, m.code[fr.pc + 2]? with
    | some idx, some imm =>
      match fr.locals[idx]? with
      | some old =>
        Out.next ⟨fr.pc + 3, fr.stack, fr.locals.set idx (wrap32 (old + sext8 imm)), fr.heap⟩
      | none => Out.err
    | _, _ => Out.err
  | .ldc =>
    match m.code[fr.pc + 1]? with
    | some b =>
      if b = 0 then Out.err
      else
        match cls.pool[b - 1]? with
        | some (CPEntry.intConst v) =>
          if fr.stack.length < m.maxStack then
            Out.next ⟨fr.pc + 2, v :: fr.stack, fr.locals, fr.heap⟩
          else Out.err
        | _ => Out.err
    | none => Out.err
  | .ifeq =>
    match m.code[fr.pc + 1]?, m.code[fr.pc + 2]? with
    | some b1, some b2 =>
      match fr.stack with
      | v :: s =>
        Out.next ⟨if v = 0 then pcAdd fr.pc (toInt16 (b1 * 256 + b2)) else fr.pc + 3,
          s, fr.locals, fr.heap⟩
      | [] => Out.err
    | _, _ => Out.err
  | .ifne =>
    match m.code[fr.pc + 1]?, m.code[fr.pc + 2]? with
    | some b1, some b2 =>
      match fr.stack with
      | v :: s =>
        Out.next ⟨if v ≠ 0 then pcAdd fr.pc (toInt16 (b1 * 256 + b2)) else fr.pc + 3,
          s, fr.locals, fr.heap⟩
      | [] => Out.err
    | _, _ => Out.err
  | .iflt =>
    match m.code[fr.pc + 1]?, m.code[fr.pc + 2]? with
    | some b1, some b2 =>
      match fr.stack with
      | v :: s =>
        Out.next ⟨if v < 0 then pcAdd fr.pc (toInt16 (b1 * 256 + b2)) else fr.pc + 3,
          s, fr.locals, fr.heap⟩
      | [] => Out.err
    | _, _ => Out.err
  | .ifge =>
    match m.code[fr.pc + 1]?, m.code[fr.pc + 2]? with
    | some b1, some b2 =>
      match fr.stack with
      | v :: s =>
        Out.next ⟨if v ≥ 0 then pcAdd fr.pc (toInt16 (b1 * 256 + b2)) else fr.pc + 3,
          s, fr.locals, fr.heap⟩
      | [] => Out.err
    | _, _ => Out.err
  | .ifgt =>
    match m.code[fr.pc + 1]?, m.code[fr.pc + 2]? with
    | some b1, some b2 =>
      match fr.stack with
      | v :: s =>
        Out.next ⟨if v > 0 then pcAdd fr.pc (toInt16 (b1 * 256 + b2)) else fr.pc + 3,
          s, fr.locals, fr.heap⟩
      | [] => Out.err
    | _, _ => Out.err
  | .ifle =>
    match m.code[fr.pc + 1]?, m.code[fr.pc + 2]? with
    | some b1, some b2 =>
      match fr.stack with
      | v :: s =>
        Out.next ⟨if v ≤ 0 then pcAdd fr.pc (toInt16 (b1 * 256 + b2)) else fr.pc + 3,
          s, fr.locals, fr.heap⟩
      | [] => Out.err
    | _, _ => Out.err
  | .icmpeq =>
    match m.code[fr.pc + 1]?, m.code[fr.pc + 2]? with
    | some b1, some b2 =>
      match fr.stack with
      | b :: a :: s =>
        Out.next ⟨if a = b then pcAdd fr.pc (toInt16 (b1 * 256 + b2)) else fr.pc + 3,
          s, fr.locals, fr.heap⟩
      | _ => Out.err
    | _, _ => Out.err
  | .icmpne =>
    match m.code[fr.pc + 1]?, m.code[fr.pc + 2]? with
    | some b1, some b2 =>
      match fr.stack with
      | b :: a :: s =>
        Out.next ⟨if a ≠ b then pcAdd fr.pc (toInt16 (b1 * 256 + b2)) else fr.pc + 3,
          s, fr.locals, fr.heap⟩
      | _ => Out.err
    | _, _ => Out.err
  | .icmplt =>
    match m.code[fr.pc + 1]?, m.code[fr.pc + 2]? with
    | some b1, some b2 =>
      match fr.stack with
      | b :: a :: s =>
        Out.next ⟨if a < b then pcAdd fr.pc (toInt16 (b1 * 256 + b2)) else fr.pc + 3,
          s, fr.locals, fr.heap⟩
      | _ => Out.err
    | _, _ => Out.err
  | .icmpge =>
    match m.code[fr.pc + 1]?, m.code[fr.pc + 2]? with
    | some b1, some b2 =>
      match fr.stack with
      | b :: a :: s =>
        Out.next ⟨if a ≥ b then pcAdd fr.pc (toInt16 (b1 * 256 + b2)) else fr.pc + 3,
          s, fr.locals, fr.heap⟩
      | _ => Out.err
    | _, _ => Out.err
  | .icmpgt =>
    match m.code[fr.pc + 1]?, m.code[fr.pc + 2]? with
    | some b1, some b2 =>
      match fr.stack with
      | b :: a :: s =>
        Out.next ⟨if a > b then pcAdd fr.pc (toInt16 (b1 * 256 + b2)) else fr.pc + 3,
          s, fr.locals, fr.heap⟩
      | _ => Out.err
    | _, _ => Out.err
  | .icmple =>
    match m.code[fr.pc + 1]?, m.code[fr.pc + 2]? with
    | some b1, some b2 =>
      match fr.stack with
      | b :: a :: s =>
        Out.next ⟨if a ≤ b then pcAdd fr.pc (toInt16 (b1 * 256 + b2)) else fr.pc + 3,
          s, fr.locals, fr.heap⟩
      | _ => Out.err
    | _, _ => Out.err
  | .goto =>
    match m.code[fr.pc + 1]?, m.code[fr.pc + 2]? with
    | some b1, some b2 =>
      Out.next ⟨pcAdd fr.pc (toInt16 (b1 * 256 + b2)), fr.stack, fr.locals, fr.heap⟩
    | _, _ => Out.err
  | .ireturn =>
    match fr.stack with
    | v :: _ => Out.ret (some v) fr.heap
    | [] => Out.err
  | .invokestatic =>
    match m.code[fr.pc + 1]?, m.code[fr.pc + 2]? with
    | some b1, some b2 =>
      match find_method_from_index (invokestaticIndex b1 b2) cls with
      | some meth =>
        if meth.nparams ≤ fr.stack.length ∧ meth.nparams ≤ meth.maxLocals then
          match exec cls meth (marshal meth.nparams meth.maxLocals fr.stack) fr.heap with
          | some (ret, heap2) =>
            match ret with
            | some v =>
              if fr.stack.length - meth.nparams < m.maxStack then
                Out.next ⟨fr.pc + 3, v :: fr.stack.drop meth.nparams, fr.locals, heap2⟩
              else Out.err
            | none => Out.next ⟨fr.pc + 3, fr.stack.drop meth.nparams, fr.locals, heap2⟩
          | none => Out.err
        else Out.err
      | none => Out.err
    | _, _ => Out.err
  | .nop => Out.next ⟨fr.pc + 1, fr.stack, fr.locals, fr.heap⟩
  | .dup =>
    match fr.stack with
    | v :: s =>
      if fr.stack.length < m.maxStack then
        Out.next ⟨fr.pc + 1, v :: v :: s, fr.locals, fr.heap⟩
      else Out.err
    | [] => Out.err
  | .newarray =>
    match fr.stack with
    | c :: s =>
      if wrap32 (c + 1) > 0 then
        Out.next ⟨fr.pc + 2,
          (heap_add fr.heap (c :: List.replicate c.toNat 0)).2 :: s,
          fr.locals, (heap_add fr.heap (c :: List.replicate c.toNat 0)).1⟩
      else Out.err
    | [] => Out.err
  | .arraylength =>
    match fr.stack with
    | ref :: s =>
      match heap_get fr.heap ref with
      | some (c :: _) => Out.next ⟨fr.pc + 1, c :: s, fr.locals, fr.heap⟩
      | _ => Out.err
    | [] => Out.err
  | .areturn =>
    match fr.stack with
    | v :: _ => Out.ret (some v) fr.heap
    | [] => Out.err
  | .iaload =>
    match fr.stack with
    | index :: ref :: s =>
      match heap_get fr.heap ref with
      | some arr =>
        if 0 ≤ index + 1 ∧ (index + 1).toNat < arr.length then
          Out.next ⟨fr.pc + 1, arr.getD (index + 1).toNat 0 :: s, fr.locals, fr.heap⟩
        else Out.err
      | none => Out.err
    | _ => Out.err
  | .aload => loadImm m fr
  | .aloadK => loadK m fr (op - i_aload_0)
  | .iastore =>
    match fr.stack with
    | value :: index :: ref :: s =>
      match heap_get fr.heap ref with
      | some arr =>
        if 0 ≤ index + 1 ∧ (index + 1).toNat < arr.length then
          Out.next ⟨fr.pc + 1, s, fr.locals,
            heap_set fr.heap ref (arr.set (index + 1).toNat value)⟩
        else Out.err
      | none => Out.err
    | _ => Out.err
  | .astore => storeImm m fr
  | .astoreK => storeK m fr (op - i_astore_0)
  | .unknown => Out.next fr

/-- One dispatch of the `switch` in `execute`: fetch the byte at `pc`
(the loop guard guarantees it is in range) and run the selected case. -/
def stepWith (exec : Exec) (cls : ClassFile) (m : Method) (fr : Frame) : Out :=
  match m.code[fr.pc]? with
  | none => Out.err
  | some op => stepInstr exec cls m fr op (decode op)

/-- The `while (pc < code_length)` interpreter loop of `execute`, with a
fuel bound on the number of dispatched instructions (every C execution
that terminates is reproduced with sufficiently large fuel; `none` means
fuel ran out or undefined behaviour was reached).  Falling off the end
of the code returns void, as in jvm.c lines 484-487. -/
def loop : Nat → ClassFile → Method → Frame → Option (Option Int × Heap)
  | 0, _, _, _ => none
  | fuel + 1, cls, m, fr =>
    if fr.pc < m.code.length then
      match stepWith (fun cls2 m2 l h => loop fuel cls2 m2 ⟨0, [], l, h⟩) cls m fr with
      | Out.next fr2 => loop fuel cls m fr2
      | Out.ret v hp => some (v, hp)
      | Out.err => none
    else
      some (none, fr.heap)

/-- Run a method from `pc = 0` with an empty operand stack, as `execute`
does after allocating the operand stack. -/
def run (fuel : Nat) (cls : ClassFile) (m : Method) (locals : List Int) (heap : Heap) :
    Option (Option Int × Heap) :=
  loop fuel cls m ⟨0, [], locals, heap⟩

/-- `execute(method, locals, class, heap)`, with the source's argument
order.  The result couples the `optional_value_t` with the final heap. -/
def execute (fuel : Nat) (method : Method) (locals : List Int) (cls : ClassFile)
    (heap : Heap) : Option (Option Int × Heap) :=
  run fuel cls method locals heap

/-- One dispatch of the interpreter on a frame, with `invokestatic`
executing its callee by `run fuel`. -/
def step1 (fuel : Nat) (cls : ClassFile) (m : Method) (fr : Frame) : Out :=
  stepWith (fun cls2 m2 l h => run fuel cls2 m2 l h) cls m fr

theorem loop_succ (fuel : Nat) (cls : ClassFile) (m : Method) (fr : Frame) :
    loop (fuel + 1) cls m fr =
      if fr.pc < m.code.length then
        match step1 fuel cls m fr with
        | Out.next fr2 => loop fuel cls m fr2
        | Out.ret v hp => some (v, hp)
        | Out.err => none
      else some (none, fr.heap) := rfl

/-- The frames reachable from `fr₁` by dispatching instructions inside
one activation of `execute`; the instruction boundaries of the
activation are exactly the frames reachable from its initial frame. -/
inductive Reach (cls : ClassFile) (m : Method) : Frame → Frame → Prop where
  | refl (fr : Frame) : Reach cls m fr fr
  | step (fr₁ fr₂ fr₃ : Frame) (fuel : Nat) : Reach cls m fr₁ fr₂ →
      fr₂.pc < m.code.length → step1 fuel cls m fr₂ = Out.next fr₃ → Reach cls m fr₁ fr₃

/-- The condition tested by the six unary conditional branches, by opcode
(jvm.c lines 230-295). -/
def unaryCond (op : Nat) (v : Int) : Bool :=
  if op = i_ifeq then decide (v = 0)
  else if op = i_ifne then decide (v ≠ 0)
  else if op = i_iflt then decide (v < 0)
  else if op = i_ifge then decide (v ≥ 0)
  else if op = i_ifgt then decide (v > 0)
  else if op = i_ifle then decide (v ≤ 0)
  else false

/-- The condition tested by the six binary comparison branches, by opcode,
between the second-from-top `a` and the top `b` (jvm.c lines 296-361). -/
def icmpCond (op : Nat) (a b : Int) : Bool :=
  if op = i_if_icmpeq then decide (a = b)
  else if op = i_if_icmpne then decide (a ≠ b)
  else if op = i_if_icmplt then decide (a < b)
  else if op = i_if_icmpge then decide (a ≥ b)
  else if op = i_if_icmpgt then decide (a > b)
  else if op = i_if_icmple then decide (a ≤ b)
  else false

theorem wrap32_eq_self (x : Int) (h1 : -(2 ^ 31) ≤ x) (h2 : x < 2 ^ 31) : wrap32 x = x := by
  unfold wrap32
  have h : (x + 2 ^ 31).emod (2 ^ 32) = x + 2 ^ 31 :=
    Int.emod_eq_of_lt (by omega) (by omega)
  omega

/-- Claim C10: `invokestatic` interprets its two operand bytes as a signed
16-bit constant-pool index: for `b1 ≥ 0x80` the index passed to
`find_method_from_index` is `((b1 << 8) | b2) - 65536`, a negative number;
only for `b1 < 0x80` is it the unsigned big-endian value. -/
theorem invokestatic_index_signed (b1 b2 : Nat) (h1 : b1 < 256) (h2 : b2 < 256) :
    (128 ≤ b1 →
      invokestaticIndex b1 b2 = (b1 : Int) * 256 + b2 - 65536 ∧ invokestaticIndex b1 b2 < 0)
    ∧ (b1 < 128 → invokestaticIndex b1 b2 = (b1 : Int) * 256 + b2)
    ∧ (∀ (fuel : Nat) (cls : ClassFile) (m : Method) (fr : Frame),
      m.code[fr.pc]? = some 184 → m.code[fr.pc + 1]? = some b1 →
      m.code[fr.pc + 2]? = some b2 →
      find_method_from_index (invokestaticIndex b1 b2) cls = none →
      step1 fuel cls m fr = Out.err) := by
  refine ⟨?_, ?_, ?_⟩
  · intro hb
    unfold invokestaticIndex toInt16
    rw [Nat.mod_eq_of_lt (by omega)]
    rw [if_neg (by omega)]
    constructor <;> push_cast <;> omega
  · intro hb
    unfold invokestaticIndex toInt16
    rw [Nat.mod_eq_of_lt (by omega)]
    rw [if_pos (by omega)]
    push_cast
    omega
  · intro fuel cls m fr hc hb1 hb2 hfind
    simp [step1, stepWith, decode, stepInstr, hc, hb1, hb2, hfind]

/-- Claim C10 witness: at operand bytes `(0x80, 0x00)` the computed index
is `0x8000 - 65536 = -32768`, a negative number. -/
theorem invokestatic_index_signed_witness :
    invokestaticIndex 128 0 = (128 : Int) * 256 + 0 - 65536 ∧ invokestaticIndex 128 0 < 0 :=
  (invokestatic_index_signed 128 0 (by decide) (by decide)).1 (by decide)

/-- Claim C3 counterexample: with `a = 1, b = 32` on the stack (so
`b ≥ 0`), the claim predicts a push of `1 << (32 & 31) = 1`, but the C
expression `a << b` has no defined result for a shift count of 32
(C11 6.5.7p3): the model yields the undefined-behaviour outcome, not a
masked shift. -/
theorem ishl_shift32_cex :
    step1 1 ⟨[]⟩ ⟨2, 0, 0, [120]⟩ ⟨0, [32, 1], [], []⟩ = Out.err := by decide

/-- Claim C3 (amended): `ishl` pops `b` then `a`; for `0 ≤ b < 32` it
pushes `a << b` wrapped to 32 bits (which equals `a << (b & 31)` on that
range); a negative `b` is fatal (assertion failure); a shift count of 32
or more is undefined behaviour, the shift count is not reduced modulo 32. -/
theorem ishl_semantics (fuel : Nat) (cls : ClassFile) (m : Method) (pc : Nat)
    (a b : Int) (s L : List Int) (H : Heap) (hc : m.code[pc]? = some 120) :
    (0 ≤ b → b < 32 → step1 fuel cls m ⟨pc, b :: a :: s, L, H⟩ =
      Out.next ⟨pc + 1, wrap32 (a * 2 ^ b.toNat) :: s, L, H⟩)
    ∧ (b < 0 → step1 fuel cls m ⟨pc, b :: a :: s, L, H⟩ = Out.err) := by
  constructor
  · intro hb0 hb32
    simp only [step1, stepWith, decode, stepInstr, hc]
    norm_num
    rw [if_neg (by omega), if_pos hb32]
  · intro hb
    simp only [step1, stepWith, decode, stepInstr, hc]
    norm_num
    intro h1
    exact absurd h1 (by omega)

/-- Claim C3 witness: shifting `a = 5` left by `b = 1` pushes 10. -/
theorem ishl_semantics_witness :
    step1 1 ⟨[]⟩ ⟨2, 0, 0, [120]⟩ ⟨0, [1, 5], [], []⟩ = Out.next ⟨1, [10], [], []⟩ := by
  have h := (ishl_semantics 1 ⟨[]⟩ ⟨2, 0, 0, [120]⟩ 0 5 1 [] [] [] rfl).1
    (by decide) (by decide)
  rw [h]
  decide

/-- Claim C5 counterexample: `count = 2147483647` is non-negative, yet the
assertion `count + 1 > 0` fails, because `count + 1` is computed in
wrapping 32-bit arithmetic and equals `-2^31`. -/
theorem newarray_intmax_cex :
    step1 1 ⟨[]⟩ ⟨1, 1, 0, [188]⟩ ⟨0, [2147483647], [], []⟩ = Out.err := by decide

/-- Claim C5 (amended): `newarray` pops `count` and asserts
`count + 1 > 0` in 32-bit arithmetic.  For `0 ≤ count < 2^31 - 1` the
assertion succeeds and the instruction allocates a fresh array of length
`count + 1` with slot 0 equal to `count` and slots `1..count` zero,
registers it with the heap, and replaces the top of stack with the
returned reference; for `count < 0`, and also for `count = 2^31 - 1`
(where `count + 1` wraps to `-2^31`), the assertion fails. -/
theorem newarray_semantics (fuel : Nat) (cls : ClassFile) (m : Method) (pc : Nat)
    (c : Int) (s L : List Int) (H : Heap) (hc : m.code[pc]? = some 188)
    (h32 : isInt32 c) :
    (0 ≤ c ∧ c < 2 ^ 31 - 1 →
      step1 fuel cls m ⟨pc, c :: s, L, H⟩ =
        Out.next ⟨pc + 2, (H.length : Int) :: s, L, H ++ [c :: List.replicate c.toNat 0]⟩)
    ∧ ((c < 0 ∨ c = 2 ^ 31 - 1) → step1 fuel cls m ⟨pc, c :: s, L, H⟩ = Out.err) := by
  obtain ⟨hlo, hhi⟩ := h32
  constructor
  · rintro ⟨hc0, hc1⟩
    have hw : wrap32 (c + 1) = c + 1 := wrap32_eq_self _ (by omega) (by omega)
    simp only [step1, stepWith, decode, stepInstr, hc]
    norm_num
    rw [if_pos (by omega : wrap32 (c + 1) > 0)]
    simp [heap_add]
  · intro hbad
    simp only [step1, stepWith, decode, stepInstr, hc]
    norm_num
    intro hpos
    exfalso
    rcases hbad with hneg | heq
    · have hw : wrap32 (c + 1) = c + 1 := wrap32_eq_self _ (by omega) (by omega)
      omega
    · subst heq
      revert hpos
      decide

/-- Claim C5 witness: `newarray` with `count = 2` on an empty heap pushes
reference 0 and registers the array `[2, 0, 0]`. -/
theorem newarray_semantics_witness :
    step1 1 ⟨[]⟩ ⟨1, 1, 0, [188]⟩ ⟨0, [2], [], []⟩ =
      Out.next ⟨2, [0], [], [[2, 0, 0]]⟩ := by
  have h := (newarray_semantics 1 ⟨[]⟩ ⟨1, 1, 0, [188]⟩ 0 2 [] [] [] rfl
    (by decide)).1 (by decide)
  rw [h]
  decide

/-- Claim C7: a `newarray` that passes the assert registers an array whose
slot 0 holds the popped count and pushes a reference resolving to it; any
later `arraylength` on a reference whose backing array still has that
count in slot 0 pushes exactly the count. -/
theorem newarray_arraylength_agree :
    (∀ (fuel : Nat) (cls : ClassFile) (m : Method) (pc : Nat) (c : Int)
      (s L : List Int) (H : Heap),
      m.code[pc]? = some 188 → 0 ≤ c → c < 2 ^ 31 - 1 →
      step1 fuel cls m ⟨pc, c :: s, L, H⟩ =
        Out.next ⟨pc + 2, (H.length : Int) :: s, L, H ++ [c :: List.replicate c.toNat 0]⟩
      ∧ heap_get (H ++ [c :: List.replicate c.toNat 0]) (H.length : Int) =
          some (c :: List.replicate c.toNat 0))
    ∧ (∀ (fuel : Nat) (cls : ClassFile) (m : Method) (pc : Nat) (r c : Int)
      (s L : List Int) (H : Heap) (tail : List Int),
      m.code[pc]? = some 190 → heap_get H r = some (c :: tail) →
      step1 fuel cls m ⟨pc, r :: s, L, H⟩ = Out.next ⟨pc + 1, c :: s, L, H⟩) := by
  constructor
  · intro fuel cls m pc c s L H hc hc0 hc1
    constructor
    · have hw : wrap32 (c + 1) = c + 1 := wrap32_eq_self _ (by omega) (by omega)
      simp only [step1, stepWith, decode, stepInstr, hc]
      norm_num
      rw [if_pos (by omega : wrap32 (c + 1) > 0)]
      simp [heap_add]
    · unfold heap_get
      rw [if_neg (by omega), Int.toNat_natCast, List.getElem?_concat_length]
  · intro fuel cls m pc r c s L H tail hc hget
    simp [step1, stepWith, decode, stepInstr, hc, hget]

/-- Claim C7 witness: allocating with count 2 and immediately querying the
length observes 2. -/
theorem newarray_arraylength_agree_witness :
    step1 1 ⟨[]⟩ ⟨1, 1, 0, [188]⟩ ⟨0, [2], [], []⟩ =
      Out.next ⟨2, [0], [], [[2, 0, 0]]⟩
    ∧ step1 1 ⟨[]⟩ ⟨1, 1, 0, [190]⟩ ⟨0, [0], [], [[2, 0, 0]]⟩ =
      Out.next ⟨1, [2], [], [[2, 0, 0]]⟩ := by
  constructor
  · have h := (newarray_arraylength_agree.1 1 ⟨[]⟩ ⟨1, 1, 0, [188]⟩ 0 2 [] [] []
      rfl (by decide) (by decide)).1
    rw [h]
    decide
  · exact newarray_arraylength_agree.2 1 ⟨[]⟩ ⟨1, 1, 0, [190]⟩ 0 0 2 [] [] [[2, 0, 0]]
      [0, 0] rfl (by decide)

/-- Claim C6: round-trip of array element access.  For a reference whose
backing array has room for index `i` (`0 ≤ i`, slot `i + 1` in range),
`iastore(ref, i, v)` writes backing slot `i + 1` and a subsequent
`iaload(ref, i)` on the updated heap pushes exactly `v`. -/
theorem iastore_iaload_roundtrip
    (fuel1 fuel2 : Nat) (cls1 cls2 : ClassFile) (m1 m2 : Method)
    (pc1 pc2 : Nat) (v i ref : Int) (s1 s2 L1 L2 : List Int) (H : Heap) (arr : List Int)
    (h79 : m1.code[pc1]? = some 79) (h46 : m2.code[pc2]? = some 46)
    (hget : heap_get H ref = some arr)
    (hi : 0 ≤ i) (hlen : (i + 1).toNat < arr.length) :
    step1 fuel1 cls1 m1 ⟨pc1, v :: i :: ref :: s1, L1, H⟩ =
      Out.next ⟨pc1 + 1, s1, L1, heap_set H ref (arr.set (i + 1).toNat v)⟩
    ∧ step1 fuel2 cls2 m2 ⟨pc2, i :: ref :: s2, L2, heap_set H ref (arr.set (i + 1).toNat v)⟩ =
      Out.next ⟨pc2 + 1, v :: s2, L2, heap_set H ref (arr.set (i + 1).toNat v)⟩ := by
  have href : ¬ ref < 0 := by
    intro hneg
    simp [heap_get, hneg] at hget
  have harr : H[ref.toNat]? = some arr := by
    simpa [heap_get, href] using hget
  have hreflen : ref.toNat < H.length := (List.getElem?_eq_some.mp harr).1
  have hget2 : heap_get (heap_set H ref (arr.set (i + 1).toNat v)) ref =
      some (arr.set (i + 1).toNat v) := by
    unfold heap_get heap_set
    rw [if_neg href, List.getElem?_set_self (by simpa using hreflen)]
  have hcond : 0 ≤ i + 1 ∧ (i + 1).toNat < arr.length := ⟨by omega, hlen⟩
  have hcond2 : 0 ≤ i + 1 ∧ (i + 1).toNat < (arr.set (i + 1).toNat v).length :=
    ⟨by omega, by rw [List.length_set]; exact hlen⟩
  constructor
  · simp only [step1, stepWith, decode, stepInstr, h79]
    norm_num
    simp [hget, hcond]
  · simp only [step1, stepWith, decode, stepInstr, h46]
    norm_num
    simp [hget2, hcond2, List.getElem?_set_self hlen]
    omega

/-- Claim C6 witness: storing 42 at index 0 of a count-3 array and loading
index 0 back pushes 42. -/
theorem iastore_iaload_roundtrip_witness :
    step1 1 ⟨[]⟩ ⟨3, 0, 0, [79]⟩ ⟨0, [42, 0, 0], [], [[3, 0, 0, 0]]⟩ =
      Out.next ⟨1, [], [], [[3, 42, 0, 0]]⟩
    ∧ step1 1 ⟨[]⟩ ⟨2, 0, 0, [46]⟩ ⟨0, [0, 0], [], [[3, 42, 0, 0]]⟩ =
      Out.next ⟨1, [42], [], [[3, 42, 0, 0]]⟩ := by
  have h := iastore_iaload_roundtrip 1 1 ⟨[]⟩ ⟨[]⟩ ⟨3, 0, 0, [79]⟩ ⟨2, 0, 0, [46]⟩
    0 0 42 0 0 [] [] [] [] [[3, 0, 0, 0]] [3, 0, 0, 0] rfl rfl (by decide)
    (by decide) (by decide)
  exact ⟨h.1.trans (by decide), h.2.trans (by decide)⟩

/-- Claim C2: every conditional branch reads a big-endian signed 16-bit
displacement from `code[pc+1..pc+2]`; if the condition holds the new pc is
the opcode's own address plus the displacement, otherwise the opcode's
address plus 3; the operands (one for unary forms, two for `if_icmp`
forms) are popped in both arms.  The last conjunct discharges the pc
arithmetic: whenever the sum is representable, the `size_t` addition
`pcAdd` is exactly `pc + displacement`. -/
theorem conditional_branch_semantics :
    (∀ (fuel : Nat) (cls : ClassFile) (m : Method) (pc : Nat) (v : Int)
      (s L : List Int) (H : Heap) (op b1 b2 : Nat),
      153 ≤ op → op ≤ 158 →
      m.code[pc]? = some op → m.code[pc + 1]? = some b1 → m.code[pc + 2]? = some b2 →
      step1 fuel cls m ⟨pc, v :: s, L, H⟩ =
        Out.next ⟨if unaryCond op v then pcAdd pc (toInt16 (b1 * 256 + b2)) else pc + 3,
          s, L, H⟩)
    ∧ (∀ (fuel : Nat) (cls : ClassFile) (m : Method) (pc : Nat) (a b : Int)
      (s L : List Int) (H : Heap) (op b1 b2 : Nat),
      159 ≤ op → op ≤ 164 →
      m.code[pc]? = some op → m.code[pc + 1]? = some b1 → m.code[pc + 2]? = some b2 →
      step1 fuel cls m ⟨pc, b :: a :: s, L, H⟩ =
        Out.next ⟨if icmpCond op a b then pcAdd pc (toInt16 (b1 * 256 + b2)) else pc + 3,
          s, L, H⟩)
    ∧ (∀ (pc : Nat) (d : Int), 0 ≤ (pc : Int) + d → (pc : Int) + d < 2 ^ 64 →
      (pcAdd pc d : Int) = (pc : Int) + d) := by
  refine ⟨?_, ?_, ?_⟩
  · intro fuel cls m pc v s L H op b1 b2 hlo hhi hc hb1 hb2
    interval_cases op <;>
      simp [step1, stepWith, decode, stepInstr, hc, hb1, hb2, unaryCond]
  · intro fuel cls m pc a b s L H op b1 b2 hlo hhi hc hb1 hb2
    interval_cases op <;>
      simp [step1, stepWith, decode, stepInstr, hc, hb1, hb2, icmpCond]
  · intro pc d h1 h2
    unfold pcAdd
    have h3 : ((pc : Int) + d).emod (2 ^ 64) = (pc : Int) + d := Int.emod_eq_of_lt h1 h2
    rw [h3, Int.toNat_of_nonneg h1]

/-- Claim C2 witness: `ifeq` with top of stack 0 at address 0 and
displacement 5 branches to pc 5, popping the operand. -/
theorem conditional_branch_semantics_witness :
    step1 1 ⟨[]⟩ ⟨1, 0, 0, [153, 0, 5]⟩ ⟨0, [0], [], []⟩ = Out.next ⟨5, [], [], []⟩ := by
  have h := conditional_branch_semantics.1 1 ⟨[]⟩ ⟨1, 0, 0, [153, 0, 5]⟩ 0 0 [] [] []
    153 0 5 (by decide) (by decide) rfl rfl rfl
  rw [h]
  decide

/-- Claim C9: for every local index the `aload` handlers compute exactly
the same state transformation as the corresponding `iload` handlers:
replacing the `aload_k` opcode (42+k) by `iload_k` (26+k), or `aload`
(25) by `iload` (21), at the current pc leaves the dispatch result —
stack, locals, heap and pc effect — unchanged. -/
theorem aload_iload_equivalent :
    (∀ (fuel : Nat) (cls : ClassFile) (m : Method) (fr : Frame) (k : Nat), k < 4 →
      m.code[fr.pc]? = some (42 + k) →
      step1 fuel cls m fr =
        step1 fuel cls ⟨m.maxStack, m.maxLocals, m.nparams, m.code.set fr.pc (26 + k)⟩ fr)
    ∧ (∀ (fuel : Nat) (cls : ClassFile) (m : Method) (fr : Frame),
      m.code[fr.pc]? = some 25 →
      step1 fuel cls m fr =
        step1 fuel cls ⟨m.maxStack, m.maxLocals, m.nparams, m.code.set fr.pc 21⟩ fr) := by
  constructor
  · intro fuel cls m fr k hk hc
    have hlt : fr.pc < m.code.length := (List.getElem?_eq_some.mp hc).1
    have hset : (m.code.set fr.pc (26 + k))[fr.pc]? = some (26 + k) :=
      List.getElem?_set_self hlt
    interval_cases k <;>
      simp [step1, stepWith, decode, stepInstr, hc, hset, loadK]
  · intro fuel cls m fr hc
    have hlt : fr.pc < m.code.length := (List.getElem?_eq_some.mp hc).1
    have hset : (m.code.set fr.pc 21)[fr.pc]? = some 21 := List.getElem?_set_self hlt
    have hop : (m.code.set fr.pc 21)[fr.pc + 1]? = m.code[fr.pc + 1]? :=
      List.getElem?_set_ne (by omega)
    simp [step1, stepWith, decode, stepInstr, hc, hset, loadImm, hop]

/-- Claim C9 witness: `aload_0` and `iload_0` on the same frame produce
the same next frame. -/
theorem aload_iload_equivalent_witness :
    step1 1 ⟨[]⟩ ⟨1, 1, 0, [42]⟩ ⟨0, [], [7], []⟩ =
      step1 1 ⟨[]⟩ ⟨1, 1, 0, [26]⟩ ⟨0, [], [7], []⟩ := by
  have h := aload_iload_equivalent.1 1 ⟨[]⟩ ⟨1, 1, 0, [42]⟩ ⟨0, [], [7], []⟩ 0
    (by decide) rfl
  exact h.trans (by decide)

theorem unhandled_spin (fuel : Nat) (fr : Frame) (h : fr.pc = 0) :
    loop fuel ⟨[]⟩ ⟨1, 0, 0, [1]⟩ fr = none := by
  induction fuel generalizing fr with
  | zero => rfl
  | succ f ih =>
    rw [loop_succ]
    have hstep : step1 f ⟨[]⟩ ⟨1, 0, 0, [1]⟩ fr = Out.next fr := by
      simp [step1, stepWith, decode, stepInstr, h]
    rw [if_pos (by simp [h]), hstep]
    exact ih fr h

/-- Claim C8 (the code, not the claim): opcode 1 (`aconst_null`) matches
no `case` label of the dispatch `switch`, which then leaves `pc`
untouched, so the `while` loop re-dispatches the same byte forever: the
interpreter neither terminates nor treats the byte as a fatal condition
(for every fuel bound the execution is still unfinished). -/
theorem unhandled_opcode_loops (fuel : Nat) (L : List Int) (H : Heap) :
    execute fuel ⟨1, 0, 0, [1]⟩ L ⟨[]⟩ H = none :=
  unhandled_spin fuel ⟨0, [], L, H⟩ rfl

/-- Claim C1: an `invokestatic` of a resolved method with `n` parameters
pops exactly `n` values into the callee's freshly allocated locals at
indices `[0..n)` preserving push order (local `j` is the value at stack
depth `n-1-j`, so the last-popped argument lands at index 0 and the top
of stack at index `n-1`); when the callee's execution completes, the
caller's new stack is the old one with `n` values dropped, plus the
callee's value on top for a value-returning callee, and the caller's pc
advances by 3. -/
theorem invokestatic_call_protocol
    (fuel : Nat) (cls : ClassFile) (m meth : Method) (pc : Nat) (stack L : List Int)
    (H heap2 : Heap) (b1 b2 : Nat) (ret : Option Int)
    (hc : m.code[pc]? = some 184) (hb1 : m.code[pc + 1]? = some b1)
    (hb2 : m.code[pc + 2]? = some b2)
    (hres : find_method_from_index (invokestaticIndex b1 b2) cls = some meth)
    (hn : meth.nparams ≤ stack.length) (hml : meth.nparams ≤ meth.maxLocals)
    (hrun : run fuel cls meth (marshal meth.nparams meth.maxLocals stack) H =
      some (ret, heap2))
    (hroom : ret.isSome = true → stack.length - meth.nparams < m.maxStack) :
    (marshal meth.nparams meth.maxLocals stack).length = meth.maxLocals
    ∧ (∀ j, j < meth.nparams →
        (marshal meth.nparams meth.maxLocals stack)[j]? = stack[meth.nparams - 1 - j]?)
    ∧ step1 fuel cls m ⟨pc, stack, L, H⟩ =
        Out.next ⟨pc + 3,
          ret.elim (stack.drop meth.nparams) (fun v => v :: stack.drop meth.nparams),
          L, heap2⟩
    ∧ (ret.elim (stack.drop meth.nparams) (fun v => v :: stack.drop meth.nparams)).length =
        stack.length - meth.nparams + (if ret.isSome then 1 else 0) := by
  refine ⟨?_, ?_, ?_, ?_⟩
  · unfold marshal
    simp [List.length_take]
    omega
  · intro j hj
    unfold marshal
    have htl : (stack.take meth.nparams).length = meth.nparams := by
      simp [List.length_take]
      omega
    have h1 : j < ((stack.take meth.nparams).reverse).length := by
      simp [htl]
      omega
    rw [List.getElem?_append_left h1,
      List.getElem?_reverse (by rw [htl]; omega : j < (stack.take meth.nparams).length),
      htl, List.getElem?_take, if_pos (by omega)]
  · cases ret with
    | none =>
      simp [step1, stepWith, decode, stepInstr, hc, hb1, hb2, hres, hrun, hn, hml]
    | some v =>
      have hr : stack.length - meth.nparams < m.maxStack := hroom rfl
      simp [step1, stepWith, decode, stepInstr, hc, hb1, hb2, hres, hrun, hn, hml, hr]
  · cases ret <;> simp [List.length_drop]

/-- Claim C1 witness: calling a one-parameter identity method
(`iload_0; ireturn`) with argument 7 on the stack removes the argument,
pushes the returned 7, and advances the caller's pc from 2 to 5. -/
theorem invokestatic_call_protocol_witness :
    step1 5 ⟨[CPEntry.methodRef ⟨1, 1, 1, [26, 172]⟩]⟩ ⟨2, 0, 0, [16, 7, 184, 0, 1, 172]⟩
      ⟨2, [7], [], []⟩ = Out.next ⟨5, [7], [], []⟩ := by
  have h := (invokestatic_call_protocol 5 ⟨[CPEntry.methodRef ⟨1, 1, 1, [26, 172]⟩]⟩
    ⟨2, 0, 0, [16, 7, 184, 0, 1, 172]⟩ ⟨1, 1, 1, [26, 172]⟩ 2 [7] [] [] [] 0 1 (some 7)
    rfl rfl rfl (by decide) (by decide) (by decide) (by decide) (by decide)).2.2.1
  exact h.trans (by decide)

theorem loadImm_stack_le {m : Method} {fr fr' : Frame}
    (hle : fr.stack.length ≤ m.maxStack) (h : loadImm m fr = Out.next fr') :
    fr'.stack.length ≤ m.maxStack := by
  unfold loadImm at h
  repeat' split at h
  all_goals first
    | exact Out.noConfusion h
    | (injection h with h2; subst h2; simp_all; omega)

theorem loadK_stack_le {m : Method} {fr fr' : Frame} {k : Nat}
    (hle : fr.stack.length ≤ m.maxStack) (h : loadK m fr k = Out.next fr') :
    fr'.stack.length ≤ m.maxStack := by
  unfold loadK at h
  repeat' split at h
  all_goals first
    | exact Out.noConfusion h
    | (injection h with h2; subst h2; simp_all; omega)

theorem storeImm_stack_le {m : Method} {fr fr' : Frame}
    (hle : fr.stack.length ≤ m.maxStack) (h : storeImm m fr = Out.next fr') :
    fr'.stack.length ≤ m.maxStack := by
  unfold storeImm at h
  repeat' split at h
  all_goals first
    | exact Out.noConfusion h
    | (injection h with h2; subst h2; simp_all; omega)

theorem storeK_stack_le {m : Method} {fr fr' : Frame} {k : Nat}
    (hle : fr.stack.length ≤ m.maxStack) (h : storeK m fr k = Out.next fr') :
    fr'.stack.length ≤ m.maxStack := by
  unfold storeK at h
  repeat' split at h
  all_goals first
    | exact Out.noConfusion h
    | (injection h with h2; subst h2; simp_all; omega)

theorem stepInstr_stack_le (exec : Exec) {cls : ClassFile} {m : Method} {fr fr' : Frame}
    {op : Nat} (i : Instr)
    (hle : fr.stack.length ≤ m.maxStack) (h : stepInstr exec cls m fr op i = Out.next fr') :
    fr'.stack.length ≤ m.maxStack := by
  cases i <;>
    simp only [stepInstr] at h <;>
    (repeat' split at h) <;>
    first
      | exact Out.noConfusion h
      | exact loadImm_stack_le hle h
      | exact loadK_stack_le hle h
      | exact storeImm_stack_le hle h
      | exact storeK_stack_le hle h
      | (injection h with h2; subst h2; simp_all [List.length_drop]; omega)
      | (injection h with h2; subst h2; simp_all [List.length_drop])

theorem stepWith_stack_le (exec : Exec) {cls : ClassFile} {m : Method} {fr fr' : Frame}
    (hle : fr.stack.length ≤ m.maxStack) (h : stepWith exec cls m fr = Out.next fr') :
    fr'.stack.length ≤ m.maxStack := by
  unfold stepWith at h
  rcases hcode : m.code[fr.pc]? with _ | op
  · rw [hcode] at h
    exact Out.noConfusion h
  · rw [hcode] at h
    exact stepInstr_stack_le exec (decode op) hle h

theorem step1_stack_le {fuel : Nat} {cls : ClassFile} {m : Method} {fr fr' : Frame}
    (hle : fr.stack.length ≤ m.maxStack) (h : step1 fuel cls m fr = Out.next fr') :
    fr'.stack.length ≤ m.maxStack :=
  stepWith_stack_le _ hle h

/-- Claim C4: at every instruction boundary reachable inside one
activation of `execute` — the operand stack starts empty and each
dispatched instruction that falls through preserves the bound — the
operand-stack depth satisfies `sp ≤ max_stack` (and `0 ≤ sp` holds by
representation, the depth being a natural number).  The operand stack is
allocated at exactly `max_stack` words, so any dispatch that would push
beyond it is the error outcome, not a `next` frame: a run in which the
`max_stack` hint is sufficient never leaves the bound. -/
theorem sp_bounded (cls : ClassFile) (m : Method) (locals : List Int) (heap : Heap)
    (fr : Frame) (h : Reach cls m ⟨0, [], locals, heap⟩ fr) :
    fr.stack.length ≤ m.maxStack := by
  induction h with
  | refl => exact Nat.zero_le _
  | step fr₂ fr₃ fuel hr hpc hs ih => exact step1_stack_le ih hs

/-- Claim C4 witness: after dispatching `iconst_0` from the initial empty
frame of a `max_stack = 1` method, the reached boundary satisfies the
bound. -/
theorem sp_bounded_witness :
    (Frame.mk 1 [0] [] []).stack.length ≤ (Method.mk 1 0 0 [3]).maxStack :=
  sp_bounded ⟨[]⟩ ⟨1, 0, 0, [3]⟩ [] [] ⟨1, [0], [], []⟩
    (Reach.step _ _ _ 1 (Reach.refl _) (by decide) (by decide))

end TeenyJVM
